import Mathlib

/-!
Shallow embedding of the shift aggregation and pay-computation engine
(`src/api/v1/services/shiftService.ts`) of the BED-final-project repository.

JavaScript numbers are modelled as exact rationals (ℚ); `Date` values and
Firestore timestamps are modelled as integer epoch milliseconds.  The
document store is an explicit parameter: a list of raw documents for
`getDocuments` and a partial map for `getDocumentById`.  Store writes and
store lookups performed by an operation are returned as explicit traces so
that claims about "no store call happens" are statable.
-/

namespace ShiftSvc

/-- JavaScript `Math.round`: round half toward positive infinity,
`Math.round x = ⌊x + 0.5⌋` (ECMA-262).  `Rat.floor` is used so the
definition evaluates by kernel reduction. -/
def mathRound (x : ℚ) : ℤ := (x + 1/2).floor

/-- Rounding to two decimals as done throughout the service:
`Math.round (x * 100) / 100`. -/
def round2 (x : ℚ) : ℚ := (mathRound (x * 100) : ℚ) / 100

/-- A raw persisted time value: either a plain `Date` (epoch ms) or a
Firestore `Timestamp` object exposing `toDate()`; both carry an instant. -/
inductive RawTime where
  | date (ms : ℤ)
  | timestamp (ms : ℤ)
deriving DecidableEq, Repr

/-- Source function `toDateFromUnknown`: converts a Firestore Timestamp-like value or a
`Date` into a `Date` (here: the underlying epoch-ms instant). -/
def toDateFromUnknown : RawTime → ℤ
  | .date ms => ms
  | .timestamp ms => ms

/-- The canonical in-memory `Shift` entity (`models/shiftModel.ts`).
Times are epoch milliseconds; `tips` is optional (`none` = `undefined`). -/
structure Shift where
  id : String
  ownerUserId : String
  employerId : String
  startTime : ℤ
  endTime : ℤ
  tips : Option ℚ
  createdAt : ℤ
  updatedAt : ℤ
deriving DecidableEq, Repr

/-- Source function `millisecondsToHours`: `Math.round ((ms / 3600000) * 100) / 100`. -/
def millisecondsToHours (milliseconds : ℚ) : ℚ :=
  (mathRound (milliseconds / 3600000 * 100) : ℚ) / 100

/-- A non-null JavaScript field value: either a number or some other
(non-numeric) value such as a string. -/
inductive JsVal where
  | num (q : ℚ)
  | other (tag : String)
deriving DecidableEq, Repr

/-- Employer document data as read by the rate resolver: the two rate
field names, each possibly absent/nullish (`none`). -/
structure EmployerData where
  rate : Option JsVal
  hourlyRate : Option JsVal
deriving DecidableEq, Repr

/-- Source function `getEmployerHourlyRate`: looks the employer document up; if the
document or its data is missing returns 0; otherwise takes
`data.rate ?? data.hourlyRate ?? 0` (first non-nullish) and returns it
when it is a number strictly greater than 0, else 0. -/
def getEmployerHourlyRate (employers : String → Option EmployerData)
    (employerId : String) : ℚ :=
  match employers employerId with
  | none => 0
  | some data =>
    let candidate := (data.rate.orElse (fun _ => data.hourlyRate)).getD (JsVal.num 0)
    match candidate with
    | .num q => if 0 < q then q else 0
    | .other _ => 0

/-- Source function `computeHoursAndPay`: duration in ms from the times of the shift, hours =
rounded duration in hours, pay = `Math.round ((hours * rate + (tips ?? 0)) * 100) / 100`
computed from the already-rounded hours. -/
def computeHoursAndPay (shift : Shift) (employerRate : ℚ) : ℚ × ℚ :=
  let milliseconds : ℚ := ((shift.endTime - shift.startTime : ℤ) : ℚ)
  let hours := millisecondsToHours milliseconds
  let pay := (mathRound ((hours * employerRate + shift.tips.getD 0) * 100) : ℚ) / 100
  (hours, pay)

/-- Duration of a shift in (exact, unrounded) hours. -/
def durationHours (shift : Shift) : ℚ :=
  ((shift.endTime - shift.startTime : ℤ) : ℚ) / 3600000

/-- A shift enriched with the computed `hours` and `pay` fields
(`ShiftWithComputed`). -/
structure ShiftWithComputed extends Shift where
  hours : ℚ
  pay : ℚ
deriving DecidableEq, Repr

/-- Raw shift document data as stored (fields before normalization). -/
structure RawShiftData where
  ownerUserId : String
  employerId : String
  startTime : RawTime
  endTime : RawTime
  tips : Option ℚ
  createdAt : RawTime
  updatedAt : RawTime
deriving DecidableEq, Repr

/-- A document as yielded by `getDocuments` (`{id, data()}`). -/
structure RawDoc where
  id : String
  data : RawShiftData
deriving DecidableEq, Repr

/-- The document-store contents seen by `getAllShifts`: the `shifts`
collection snapshot and the `employers` collection keyed by id. -/
structure Store where
  shiftDocs : List RawDoc
  employers : String → Option EmployerData

/-- The in-memory mapping of a raw document to a `Shift` performed inside
`getAllShifts` (and `getShiftById`). -/
def normalizeShiftDoc (doc : RawDoc) : Shift :=
  { id := doc.id
    ownerUserId := doc.data.ownerUserId
    employerId := doc.data.employerId
    startTime := toDateFromUnknown doc.data.startTime
    endTime := toDateFromUnknown doc.data.endTime
    tips := doc.data.tips
    createdAt := toDateFromUnknown doc.data.createdAt
    updatedAt := toDateFromUnknown doc.data.updatedAt }

/-- The employer filter of `getAllShifts`:
`options?.employerId ? shift.employerId === options.employerId : true`.
A JavaScript string is truthy exactly when it is non-empty, so an
empty-string filter behaves like no filter. -/
def employerFilter (opt : Option String) (shift : Shift) : Bool :=
  match opt with
  | some e => if e = "" then true else shift.employerId == e
  | none => true

/-- Options accepted by `getAllShifts`; `none`/`false` model absent
fields (and an absent options object). -/
structure GetAllOptions where
  employerId : Option String
  includeTotals : Bool
deriving DecidableEq, Repr

/-- The owner- and employer-filtered, normalized shift list built by
`getAllShifts` before enrichment. -/
def filteredShifts (store : Store) (ownerUserId : String)
    (options : GetAllOptions) : List Shift :=
  ((store.shiftDocs.map normalizeShiftDoc).filter
      (fun shift => shift.ownerUserId == ownerUserId)).filter
    (employerFilter options.employerId)

/-- Lookup in the per-call employer-rate cache (a JavaScript `Map`,
modelled as an association list in insertion order). -/
def rateLookup : List (String × ℚ) → String → Option ℚ
  | [], _ => none
  | (k, v) :: rest, key => if k = key then some v else rateLookup rest key

/-- The enrichment loop of `getAllShifts`: for each shift, consult the
employer-rate cache; on a miss, call `getEmployerHourlyRate` and record
the id in the store-lookup trace (third component) and the result in the
cache (second component); then compute `{hours, pay}` and append. -/
def enrichShifts (employers : String → Option EmployerData) :
    List Shift → List (String × ℚ) →
    List ShiftWithComputed × List (String × ℚ) × List String
  | [], cache => ([], cache, [])
  | shift :: rest, cache =>
    match rateLookup cache shift.employerId with
    | some rate =>
      let hp := computeHoursAndPay shift rate
      let r := enrichShifts employers rest cache
      (⟨shift, hp.1, hp.2⟩ :: r.1, r.2.1, r.2.2)
    | none =>
      let rate := getEmployerHourlyRate employers shift.employerId
      let cache2 := cache ++ [(shift.employerId, rate)]
      let hp := computeHoursAndPay shift rate
      let r := enrichShifts employers rest cache2
      (⟨shift, hp.1, hp.2⟩ :: r.1, r.2.1, shift.employerId :: r.2.2)

/-- One enriched shift as produced with a consistent cache: the rate is
resolved through `getEmployerHourlyRate` for the employer of the shift. -/
def mkEnriched (employers : String → Option EmployerData)
    (shift : Shift) : ShiftWithComputed :=
  let hp := computeHoursAndPay shift (getEmployerHourlyRate employers shift.employerId)
  ⟨shift, hp.1, hp.2⟩

/-- Proleptic-Gregorian civil date (year, month, day) of a day count
relative to 1970-01-01, as computed by `Date.prototype.toISOString`
(UTC calendar).  Standard civil-from-days algorithm. -/
def civilFromDays (z0 : ℤ) : ℤ × ℤ × ℤ :=
  let z := z0 + 719468
  let era := Int.fdiv z 146097
  let doe := z - era * 146097
  let yoe := Int.fdiv (doe - Int.fdiv doe 1460 + Int.fdiv doe 36524 - Int.fdiv doe 146096) 365
  let y := yoe + era * 400
  let doy := doe - (365 * yoe + Int.fdiv yoe 4 - Int.fdiv yoe 100)
  let mp := Int.fdiv (5 * doy + 2) 153
  let d := doy - Int.fdiv (153 * mp + 2) 5 + 1
  let m := if mp < 10 then mp + 3 else mp - 9
  (if m ≤ 2 then y + 1 else y, m, d)

/-- Left-pad a natural number with zeros to the given width. -/
def padZeros (n : ℕ) (width : ℕ) : String :=
  let s := toString n
  String.mk (List.replicate (width - s.length) '0') ++ s

/-- The date part of `Date.prototype.toISOString` for an epoch-ms
instant: `YYYY-MM-DD` in UTC (expanded `±YYYYYY` form outside
years 0–9999, per ECMA-262). -/
def isoDateString (ms : ℤ) : String :=
  let c := civilFromDays (Int.fdiv ms 86400000)
  let y := c.1
  let yearStr :=
    if 0 ≤ y ∧ y ≤ 9999 then padZeros y.toNat 4
    else if y < 0 then "-" ++ padZeros (-y).toNat 6
    else "+" ++ padZeros y.toNat 6
  yearStr ++ "-" ++ padZeros c.2.1.toNat 2 ++ "-" ++ padZeros c.2.2.toNat 2

/-- Source function `formatIsoDate`: `date.toISOString().slice(0, 10)` — the UTC
`YYYY-MM-DD` day key. -/
def formatIsoDate (ms : ℤ) : String := (isoDateString ms).take 10

/-- Source function `formatYearMonth`: `date.toISOString().slice(0, 7)` — the UTC
`YYYY-MM` month key. -/
def formatYearMonth (ms : ℤ) : String := (isoDateString ms).take 7

/-- One accumulation step of `aggregateTotals`: add `(h, p)` into the
bucket for `key`, creating the bucket (at the end, i.e. in first-insertion
order, as for a JavaScript record) if it is not present yet. -/
def addToBucket : List (String × ℚ × ℚ) → String → ℚ → ℚ →
    List (String × ℚ × ℚ)
  | [], key, h, p => [(key, h, p)]
  | (k, th, tp) :: rest, key, h, p =>
    if k = key then (k, th + h, tp + p) :: rest
    else (k, th, tp) :: addToBucket rest key h p

/-- Bucket lookup in a totals record. -/
def bucketFind : List (String × ℚ × ℚ) → String → Option (ℚ × ℚ)
  | [], _ => none
  | (k, v) :: rest, key => if k = key then some v else bucketFind rest key

/-- Source function `aggregateTotals`: accumulate exact sums of `hours` and `pay` per
grouping key, then round the two components of each bucket to 2 decimals. -/
def aggregateTotals (items : List ShiftWithComputed)
    (keySelector : ShiftWithComputed → String) : List (String × ℚ × ℚ) :=
  let raw := items.foldl
    (fun acc it => addToBucket acc (keySelector it) it.hours it.pay) []
  raw.map (fun e => (e.1, round2 e.2.1, round2 e.2.2))

/-- Totals container (`byDay` / `byMonth` records). -/
structure ShiftTotals where
  byDay : List (String × ℚ × ℚ)
  byMonth : List (String × ℚ × ℚ)
deriving DecidableEq, Repr

/-- Result shape of `getAllShifts`. -/
structure GetAllResult where
  items : List ShiftWithComputed
  totals : Option ShiftTotals
deriving DecidableEq, Repr

/-- The function `getAllShifts`, instrumented with the trace of employer ids for which
a store lookup (`getEmployerHourlyRate`) was actually performed.  The
employer-rate cache starts empty on every call. -/
def getAllShiftsWithTrace (store : Store) (ownerUserId : String)
    (options : GetAllOptions) : GetAllResult × List String :=
  let userShifts := filteredShifts store ownerUserId options
  let r := enrichShifts store.employers userShifts []
  let items := r.1
  let result : GetAllResult :=
    if options.includeTotals then
      { items := items
        totals := some
          { byDay := aggregateTotals items (fun s => formatIsoDate s.startTime)
            byMonth := aggregateTotals items (fun s => formatYearMonth s.startTime) } }
    else { items := items, totals := none }
  (result, r.2.2)

/-- Source function `getAllShifts`: retrieve, filter, enrich and optionally aggregate the
shifts of the caller. -/
def getAllShifts (store : Store) (ownerUserId : String)
    (options : GetAllOptions) : GetAllResult :=
  (getAllShiftsWithTrace store ownerUserId options).1

/-- A document snapshot as returned by `getDocumentById`
(`{id, exists, data()}`); the whole result may also be nullish. -/
structure DocSnapshot where
  id : String
  docExists : Bool
  data : RawShiftData
deriving DecidableEq, Repr

/-- The error message raised for an absent or foreign shift. -/
def notFoundMsg (shiftId : String) : String :=
  "Shift with id " ++ shiftId ++ " not found"

/-- Source function `getShiftById`: fetch by id; fail when the snapshot is nullish or
`exists` is false, or when the owner differs; otherwise normalize and
return the entity. -/
def getShiftById (byId : String → Option DocSnapshot)
    (ownerUserId shiftId : String) : Except String Shift :=
  match byId shiftId with
  | none => .error (notFoundMsg shiftId)
  | some doc =>
    if !doc.docExists then .error (notFoundMsg shiftId)
    else if doc.data.ownerUserId ≠ ownerUserId then .error (notFoundMsg shiftId)
    else .ok (normalizeShiftDoc ⟨doc.id, doc.data⟩)

/-- Partial update payload (`UpdateShiftInput`): `none` models an
`undefined` (absent) field.  ISO time strings are modelled by the instant
`new Date(...)` parses them to. -/
structure UpdateShiftInput where
  employerId : Option String
  startTime : Option ℤ
  endTime : Option ℤ
  tips : Option ℚ
deriving DecidableEq, Repr

/-- The `updateData` object built by `updateShift`: exactly the supplied
fields, plus a fresh `updatedAt`. -/
structure UpdateData where
  employerId : Option String
  startTime : Option ℤ
  endTime : Option ℤ
  tips : Option ℚ
  updatedAt : ℤ
deriving DecidableEq, Repr

/-- Build `updateData` from the partial input and the current instant. -/
def mkUpdateData (input : UpdateShiftInput) (now : ℤ) : UpdateData :=
  { employerId := input.employerId
    startTime := input.startTime
    endTime := input.endTime
    tips := input.tips
    updatedAt := now }

/-- The in-memory merge `{...existing, ...updateData}` returned by
`updateShift`: supplied fields overwrite, absent fields keep the
pre-update values, `updatedAt` is always overwritten. -/
def mergeShift (existing : Shift) (u : UpdateData) : Shift :=
  { id := existing.id
    ownerUserId := existing.ownerUserId
    employerId := u.employerId.getD existing.employerId
    startTime := u.startTime.getD existing.startTime
    endTime := u.endTime.getD existing.endTime
    tips := u.tips.orElse (fun _ => existing.tips)
    createdAt := existing.createdAt
    updatedAt := u.updatedAt }

/-- A write issued against the document store. -/
inductive StoreOp where
  | update (collection : String) (id : String) (data : UpdateData)
  | delete (collection : String) (id : String)
deriving DecidableEq, Repr

/-- Source function `updateShift`: ownership gate via `getShiftById`; on success build
`updateData`, persist it, and return the optimistic in-memory merge.  The
second component is the list of store writes performed. -/
def updateShift (byId : String → Option DocSnapshot) (now : ℤ)
    (ownerUserId shiftId : String) (input : UpdateShiftInput) :
    Except String Shift × List StoreOp :=
  match getShiftById byId ownerUserId shiftId with
  | .error e => (.error e, [])
  | .ok existing =>
    let updateData := mkUpdateData input now
    (.ok (mergeShift existing updateData),
     [StoreOp.update "shifts" existing.id updateData])

/-- Source function `deleteShift`: ownership gate via `getShiftById`, then delete. -/
def deleteShift (byId : String → Option DocSnapshot)
    (ownerUserId shiftId : String) : Except String Unit × List StoreOp :=
  match getShiftById byId ownerUserId shiftId with
  | .error e => (.error e, [])
  | .ok existing => (.ok (), [StoreOp.delete "shifts" existing.id])

/-- Apply an update payload to stored document data (field-wise merge,
as `updateDocument` does). -/
def applyUpdateToData (u : UpdateData) (d : RawShiftData) : RawShiftData :=
  { d with
    employerId := u.employerId.getD d.employerId
    startTime := (u.startTime.map RawTime.date).getD d.startTime
    endTime := (u.endTime.map RawTime.date).getD d.endTime
    tips := u.tips.orElse (fun _ => d.tips)
    updatedAt := RawTime.date u.updatedAt }

/-- Effect of one store write on the `shifts` collection (by-id view). -/
def applyStoreOp (db : String → Option DocSnapshot) :
    StoreOp → String → Option DocSnapshot
  | .update _ i u, j =>
    if j = i then (db j).map (fun doc => { doc with data := applyUpdateToData u doc.data })
    else db j
  | .delete _ i, j => if j = i then none else db j

/-- Effect of a list of store writes, applied left to right. -/
def applyStoreOps (ops : List StoreOp) (db : String → Option DocSnapshot) :
    String → Option DocSnapshot :=
  ops.foldl applyStoreOp db

/-- A cache is consistent when every cached rate is what the resolver
would return for that employer. -/
def cacheConsistent (employers : String → Option EmployerData)
    (cache : List (String × ℚ)) : Prop :=
  ∀ k r, rateLookup cache k = some r → r = getEmployerHourlyRate employers k

/-- Number of occurrences of a string in a list. -/
def countOcc : List String → String → ℕ
  | [], _ => 0
  | x :: xs, e => (if x = e then 1 else 0) + countOcc xs e

/-- Exact sum of the `hours` of the items whose key is `key`. -/
def keyHoursSum (items : List ShiftWithComputed)
    (keySelector : ShiftWithComputed → String) (key : String) : ℚ :=
  ((items.filter (fun s => keySelector s == key)).map (fun s => s.hours)).sum

/-- Exact sum of the `pay` of the items whose key is `key`. -/
def keyPaySum (items : List ShiftWithComputed)
    (keySelector : ShiftWithComputed → String) (key : String) : ℚ :=
  ((items.filter (fun s => keySelector s == key)).map (fun s => s.pay)).sum

/-- Spec-side description of one totals bucket: the exact sum of `hours`
and of `pay` over the items with the given key, rounded to 2 decimals
after summation; `none` when no item has the key. -/
def bucketSumSpec (items : List ShiftWithComputed)
    (keySelector : ShiftWithComputed → String) (key : String) : Option (ℚ × ℚ) :=
  if (items.filter (fun s => keySelector s == key)).isEmpty then none
  else some (round2 (keyHoursSum items keySelector key),
             round2 (keyPaySum items keySelector key))

/-! ### Concrete inputs used by counterexamples and witnesses -/

/-- A raw stored shift datum owned by user `A`, employer `x`. -/
def rawA : RawShiftData :=
  { ownerUserId := "A", employerId := "x"
    startTime := .date 0, endTime := .timestamp 28800000
    tips := none, createdAt := .date 0, updatedAt := .date 0 }

/-- Its normalized `Shift` form (document id `d1`). -/
def shiftA : Shift := normalizeShiftDoc ⟨"d1", rawA⟩

/-- A store holding exactly one shift document, owned by `A`, and no
employer documents. -/
def storeA : Store := { shiftDocs := [⟨"d1", rawA⟩], employers := fun _ => none }

/-- A by-id `shifts` collection holding one existing document `s1` owned
by user `B`. -/
def byIdB : String → Option DocSnapshot := fun i =>
  if i = "s1" then some { id := "s1", docExists := true, data := { rawA with ownerUserId := "B" } }
  else none

/-- A by-id `shifts` collection holding one existing document `s1` owned
by user `A`. -/
def byIdA : String → Option DocSnapshot := fun i =>
  if i = "s1" then some { id := "s1", docExists := true, data := rawA }
  else none

/-- Concrete shift refuting C1 as stated: duration −18000 ms
(end 18000 ms before start). -/
def c1CexShift : Shift :=
  { id := "s1", ownerUserId := "u1", employerId := "e1"
    startTime := 18000, endTime := 0, tips := none
    createdAt := 0, updatedAt := 0 }

/-- Concrete shift with duration −3600000 ms used to witness C1. -/
def c1WitnessShift : Shift :=
  { id := "s2", ownerUserId := "u1", employerId := "e1"
    startTime := 3600000, endTime := 0, tips := none
    createdAt := 0, updatedAt := 0 }

/-- Employers collection refuting C2 as stated: employer `e1` carries a
non-positive `rate` next to a positive `hourlyRate`. -/
def c2Employers : String → Option EmployerData := fun i =>
  if i = "e1" then some { rate := some (.num (-5)), hourlyRate := some (.num 20) }
  else none

/-- Employers collection used to witness the amended C2. -/
def c2WitnessEmployers : String → Option EmployerData := fun i =>
  if i = "ok" then some { rate := some (.num 25), hourlyRate := none }
  else if i = "fallback" then some { rate := none, hourlyRate := some (.num 17) }
  else if i = "shadow" then some { rate := some (.other "NaNish"), hourlyRate := some (.num 20) }
  else none

/-! ### Helper lemmas about the rounding functions -/

/-- The function `mathRound` agrees with the mathematical floor of `x + 1/2`. -/
theorem mathRound_eq_floor (x : ℚ) : mathRound x = ⌊x + 1/2⌋ := by
  rw [mathRound, Rat.floor_def, Rat.floor_def']

/-- The function `millisecondsToHours` is two-decimal rounding of the duration in hours. -/
theorem millisecondsToHours_eq_round2 (ms : ℚ) :
    millisecondsToHours ms = round2 (ms / 3600000) := rfl

/-- A negative quantity rounds to a nonpositive value. -/
theorem round2_nonpos {x : ℚ} (h : x < 0) : round2 x ≤ 0 := by
  unfold round2
  rw [mathRound_eq_floor]
  have h1 : (x * 100 + 1 / 2 : ℚ) < 1 := by nlinarith
  have h2 : ⌊(x * 100 + 1 / 2 : ℚ)⌋ < (1 : ℤ) := Int.floor_lt.mpr (by exact_mod_cast h1)
  have h3 : ((⌊(x * 100 + 1 / 2 : ℚ)⌋ : ℤ) : ℚ) ≤ 0 := by exact_mod_cast (by omega : ⌊(x * 100 + 1 / 2 : ℚ)⌋ ≤ 0)
  linarith

/-- A quantity below one half-cent of the negative side rounds to a
strictly negative value. -/
theorem round2_neg {x : ℚ} (h : x < -(1 / 200)) : round2 x < 0 := by
  unfold round2
  rw [mathRound_eq_floor]
  have h1 : (x * 100 + 1 / 2 : ℚ) < 0 := by nlinarith
  have h2 : ⌊(x * 100 + 1 / 2 : ℚ)⌋ < (0 : ℤ) := Int.floor_lt.mpr (by exact_mod_cast h1)
  have h3 : ((⌊(x * 100 + 1 / 2 : ℚ)⌋ : ℤ) : ℚ) ≤ -1 := by exact_mod_cast (by omega : ⌊(x * 100 + 1 / 2 : ℚ)⌋ ≤ -1)
  linarith

/-! ### C1 — computeHoursAndPay -/

/-- C1 counterexample: for the shift with duration −18000 ms and rate 20,
the code yields hours = 0 and pay = 0 — not the negative hours and pay
(arithmetic rounding of −0.005 h would give −0.01) the claim asserts for
every negative duration. -/
theorem computeHoursAndPay_claim_cex :
    c1CexShift.endTime < c1CexShift.startTime ∧
    computeHoursAndPay c1CexShift 20 = (0, 0) ∧
    ¬ ((computeHoursAndPay c1CexShift 20).1 < 0) ∧
    ¬ ((computeHoursAndPay c1CexShift 20).2 < 0) := by
  have hval : computeHoursAndPay c1CexShift 20 = (0, 0) := by
    simp only [computeHoursAndPay, millisecondsToHours, c1CexShift, mathRound_eq_floor]
    norm_num
  refine ⟨by norm_num [c1CexShift], hval, ?_, ?_⟩ <;> rw [hval] <;> norm_num

/-- C1 (amended): computeHoursAndPay returns
`hours = round2 ((endTime − startTime) in hours)` and
`pay = round2 (hours × rate + (tips ?? 0))` with pay computed from the
already-rounded hours, rounding (`Math.round (x*100)/100`, round half up,
not bankers rounding) applied exactly once to each; negative durations are not
rejected: they yield nonpositive hours, strictly negative as soon as the
duration is below −18000 ms (pay follows the formula and need not be
negative, e.g. with large tips). -/
theorem computeHoursAndPay_spec :
    (∀ (s : Shift) (rate : ℚ),
        (computeHoursAndPay s rate).1 = round2 (durationHours s) ∧
        (computeHoursAndPay s rate).2 =
          round2 ((computeHoursAndPay s rate).1 * rate + s.tips.getD 0)) ∧
    (∀ (s : Shift) (rate : ℚ), s.endTime < s.startTime →
        (computeHoursAndPay s rate).1 ≤ 0) ∧
    (∀ (s : Shift) (rate : ℚ), s.endTime - s.startTime < -18000 →
        (computeHoursAndPay s rate).1 < 0) := by
  refine ⟨fun s rate => ⟨rfl, rfl⟩, fun s rate h => ?_, fun s rate h => ?_⟩
  · have hdur : durationHours s < 0 := by
      unfold durationHours
      have h0 : ((s.endTime - s.startTime : ℤ) : ℚ) < 0 := by
        exact_mod_cast (by omega : s.endTime - s.startTime < (0 : ℤ))
      linarith
    calc (computeHoursAndPay s rate).1 = round2 (durationHours s) := rfl
      _ ≤ 0 := round2_nonpos hdur
  · have hdur : durationHours s < -(1 / 200) := by
      unfold durationHours
      have h0 : ((s.endTime - s.startTime : ℤ) : ℚ) < -18000 := by exact_mod_cast h
      linarith
    calc (computeHoursAndPay s rate).1 = round2 (durationHours s) := rfl
      _ < 0 := round2_neg hdur

/-- Witness for the amended C1 at a concrete one-hour-negative shift. -/
theorem computeHoursAndPay_spec_witness :
    c1WitnessShift.endTime < c1WitnessShift.startTime ∧
    c1WitnessShift.endTime - c1WitnessShift.startTime < -18000 ∧
    (computeHoursAndPay c1WitnessShift 20).1 ≤ 0 ∧
    (computeHoursAndPay c1WitnessShift 20).1 < 0 ∧
    (computeHoursAndPay c1WitnessShift 20).1 = round2 (durationHours c1WitnessShift) :=
  ⟨by decide, by decide,
   computeHoursAndPay_spec.2.1 c1WitnessShift 20 (by decide),
   computeHoursAndPay_spec.2.2 c1WitnessShift 20 (by decide),
   (computeHoursAndPay_spec.1 c1WitnessShift 20).1⟩

/-! ### C2 — getEmployerHourlyRate -/

/-- C2 counterexample: with `rate = -5` (present, numeric, non-positive)
and `hourlyRate = 20` (positive), the resolver returns 0, not the second
positive value 20 of the second field as the claim asserts. -/
theorem getEmployerHourlyRate_claim_cex :
    getEmployerHourlyRate c2Employers "e1" = 0 ∧ (0 : ℚ) ≠ 20 := by
  constructor
  · simp only [getEmployerHourlyRate, c2Employers, if_pos rfl, Option.orElse, Option.getD]
    norm_num
  · norm_num

/-- C2 (amended): the resolver never raises (it is a total function); it
returns 0 when the employer document is absent or both rate fields are
nullish; otherwise it selects the first non-null field in the order
(`rate`, then `hourlyRate`) and returns its value exactly when that value
is numeric and strictly positive, else 0.  In particular a present but
non-numeric or non-positive `rate` shadows a positive `hourlyRate` and
the result is 0; the result is always nonnegative. -/
theorem getEmployerHourlyRate_spec :
    ∀ (employers : String → Option EmployerData) (eid : String),
      0 ≤ getEmployerHourlyRate employers eid ∧
      (employers eid = none → getEmployerHourlyRate employers eid = 0) ∧
      (∀ d, employers eid = some d → d.rate = none → d.hourlyRate = none →
        getEmployerHourlyRate employers eid = 0) ∧
      (∀ d q, employers eid = some d → d.rate = some (.num q) → 0 < q →
        getEmployerHourlyRate employers eid = q) ∧
      (∀ d q, employers eid = some d → d.rate = none →
        d.hourlyRate = some (.num q) → 0 < q →
        getEmployerHourlyRate employers eid = q) ∧
      (∀ d v, employers eid = some d → d.rate = some v →
        (∀ q, v = .num q → q ≤ 0) →
        getEmployerHourlyRate employers eid = 0) := by
  intro employers eid
  refine ⟨?_, ?_, ?_, ?_, ?_, ?_⟩
  · unfold getEmployerHourlyRate
    cases employers eid with
    | none => norm_num
    | some d =>
      dsimp only
      cases (d.rate.orElse fun _ => d.hourlyRate).getD (JsVal.num 0) with
      | num q =>
        dsimp only
        split
        · linarith
        · norm_num
      | other t => norm_num
  · intro h; simp [getEmployerHourlyRate, h]
  · intro d h hr hh; simp [getEmployerHourlyRate, h, hr, hh, Option.orElse]
  · intro d q h hr hq
    simp [getEmployerHourlyRate, h, hr, Option.orElse, hq]
  · intro d q h hr hh hq
    simp [getEmployerHourlyRate, h, hr, hh, Option.orElse, hq]
  · intro d v h hr hv
    rcases v with q | t
    · have hq : q ≤ 0 := hv q rfl
      simp [getEmployerHourlyRate, h, hr, Option.orElse, not_lt.mpr hq]
    · simp [getEmployerHourlyRate, h, hr, Option.orElse]

/-- Witness for the amended C2 on concrete employer documents. -/
theorem getEmployerHourlyRate_spec_witness :
    getEmployerHourlyRate c2WitnessEmployers "missing" = 0 ∧
    getEmployerHourlyRate c2WitnessEmployers "ok" = 25 ∧
    getEmployerHourlyRate c2WitnessEmployers "fallback" = 17 ∧
    getEmployerHourlyRate c2WitnessEmployers "shadow" = 0 :=
  ⟨(getEmployerHourlyRate_spec c2WitnessEmployers "missing").2.1 (by decide),
   (getEmployerHourlyRate_spec c2WitnessEmployers "ok").2.2.2.1
     ⟨some (.num 25), none⟩ 25 (by decide) (by decide) (by norm_num),
   (getEmployerHourlyRate_spec c2WitnessEmployers "fallback").2.2.2.2.1
     ⟨none, some (.num 17)⟩ 17 (by decide) (by decide) (by decide) (by norm_num),
   (getEmployerHourlyRate_spec c2WitnessEmployers "shadow").2.2.2.2.2
     ⟨some (.other "NaNish"), some (.num 20)⟩ (.other "NaNish") (by decide) (by decide)
     (fun q hq => by cases hq)⟩

/-! ### Enrichment, cache and listing lemmas -/

/-- Looking a key up after appending an entry at the end: the original
cache wins, the new entry only answers for its own key. -/
theorem rateLookup_append (cache : List (String × ℚ)) (k : String) (v : ℚ)
    (key : String) :
    rateLookup (cache ++ [(k, v)]) key =
      ((rateLookup cache key).orElse
        (fun _ => if k = key then some v else none)) := by
  induction cache with
  | nil => simp [rateLookup, Option.orElse]
  | cons hd tl ih =>
    obtain ⟨k1, v1⟩ := hd
    by_cases h : k1 = key
    · simp [rateLookup, h, Option.orElse]
    · simp [rateLookup, h, ih]

/-- The empty cache is consistent. -/
theorem cacheConsistent_nil (employers : String → Option EmployerData) :
    cacheConsistent employers [] :=
  fun _ r h => by simp [rateLookup] at h

/-- Consistency is preserved when caching a freshly resolved rate. -/
theorem cacheConsistent_append {employers : String → Option EmployerData}
    {cache : List (String × ℚ)} (h : cacheConsistent employers cache)
    (k : String) :
    cacheConsistent employers
      (cache ++ [(k, getEmployerHourlyRate employers k)]) := by
  intro key r hl
  rw [rateLookup_append] at hl
  cases hc : rateLookup cache key with
  | some v =>
    rw [hc] at hl
    simp only [Option.orElse] at hl
    exact (Option.some.inj hl) ▸ h key v hc
  | none =>
    rw [hc] at hl
    simp only [Option.orElse] at hl
    by_cases hk : k = key
    · rw [if_pos hk] at hl
      subst hk
      exact (Option.some.inj hl).symm
    · rw [if_neg hk] at hl
      cases hl

/-- With a consistent cache, enrichment yields exactly the filtered
shifts mapped through `mkEnriched` (the cache never changes a value). -/
theorem enrichShifts_items (employers : String → Option EmployerData)
    {cache : List (String × ℚ)} (shifts : List Shift)
    (h : cacheConsistent employers cache) :
    (enrichShifts employers shifts cache).1 = shifts.map (mkEnriched employers) := by
  induction shifts generalizing cache with
  | nil => rfl
  | cons s rest ih =>
    cases hc : rateLookup cache s.employerId with
    | some rate =>
      have hr : rate = getEmployerHourlyRate employers s.employerId := h _ _ hc
      simp only [enrichShifts, hc, List.map_cons]
      rw [ih h]
      simp [mkEnriched, hr]
    | none =>
      simp only [enrichShifts, hc, List.map_cons]
      rw [ih (cacheConsistent_append h s.employerId)]
      simp [mkEnriched]

/-- The store-lookup trace of the enrichment loop contains an employer id
exactly once when some shift references it and it is not cached yet, and
never otherwise. -/
theorem enrichShifts_trace (employers : String → Option EmployerData)
    (shifts : List Shift) (cache : List (String × ℚ)) (e : String) :
    countOcc (enrichShifts employers shifts cache).2.2 e =
      if e ∈ shifts.map Shift.employerId ∧ rateLookup cache e = none then 1
      else 0 := by
  induction shifts generalizing cache with
  | nil => simp [enrichShifts, countOcc]
  | cons s rest ih =>
    cases hc : rateLookup cache s.employerId with
    | some rate =>
      simp only [enrichShifts, hc]
      rw [ih cache]
      by_cases he : e = s.employerId
      · subst he
        have hA : ¬(s.employerId ∈ (s :: rest).map Shift.employerId ∧
            rateLookup cache s.employerId = none) := by
          rintro ⟨-, h2⟩; rw [hc] at h2; cases h2
        have hB : ¬(s.employerId ∈ rest.map Shift.employerId ∧
            rateLookup cache s.employerId = none) := by
          rintro ⟨-, h2⟩; rw [hc] at h2; cases h2
        rw [if_neg hB, if_neg hA]
      · simp only [List.map_cons, List.mem_cons]
        simp [he]
    | none =>
      simp only [enrichShifts, hc, countOcc]
      rw [ih (cache ++ [(s.employerId, getEmployerHourlyRate employers s.employerId)])]
      by_cases he : e = s.employerId
      · subst he
        have hc2 : rateLookup
            (cache ++ [(s.employerId, getEmployerHourlyRate employers s.employerId)])
              s.employerId =
            some (getEmployerHourlyRate employers s.employerId) := by
          rw [rateLookup_append, hc]
          simp [Option.orElse]
        rw [hc2]
        simp only [List.map_cons, List.mem_cons]
        simp [hc]
      · have hsne : ¬ s.employerId = e := fun h => he h.symm
        have hc2 : rateLookup
            (cache ++ [(s.employerId, getEmployerHourlyRate employers s.employerId)]) e =
              rateLookup cache e := by
          rw [rateLookup_append]
          cases h0 : rateLookup cache e with
          | some v => simp [Option.orElse]
          | none => simp [Option.orElse, hsne]
        rw [hc2]
        simp only [List.map_cons, List.mem_cons]
        simp [he, hsne]

/-- Enrichment only attaches computed fields; the underlying shift is
unchanged. -/
theorem mkEnriched_toShift (employers : String → Option EmployerData)
    (s : Shift) : (mkEnriched employers s).toShift = s := rfl

/-- Every shift that survives the filters belongs to the requested owner. -/
theorem filteredShifts_owner {store : Store} {owner : String}
    {options : GetAllOptions} {s : Shift}
    (hs : s ∈ filteredShifts store owner options) : s.ownerUserId = owner := by
  unfold filteredShifts at hs
  have h1 := (List.mem_filter.mp hs).1
  have h2 := (List.mem_filter.mp h1).2
  simpa using h2

/-- The items of `getAllShifts` are the filtered shifts mapped through
`mkEnriched` (the per-call cache starts empty and is consistent). -/
theorem getAllShifts_items (store : Store) (owner : String)
    (options : GetAllOptions) :
    (getAllShifts store owner options).items =
      (filteredShifts store owner options).map (mkEnriched store.employers) := by
  unfold getAllShifts getAllShiftsWithTrace
  have h := enrichShifts_items store.employers
    (filteredShifts store owner options) (cacheConsistent_nil store.employers)
  by_cases ht : options.includeTotals <;> simp [ht, h]

/-- Filtering on a predicate of `employerId` commutes with enrichment. -/
theorem map_mkEnriched_filter (employers : String → Option EmployerData)
    (p : String → Bool) (l : List Shift) :
    (l.filter (fun s => p s.employerId)).map (mkEnriched employers) =
      (l.map (mkEnriched employers)).filter (fun it => p it.employerId) := by
  induction l with
  | nil => rfl
  | cons s rest ih =>
    by_cases h : p s.employerId
    · simp [List.filter_cons, h, ih, mkEnriched_toShift]
    · simp [List.filter_cons, h, ih, mkEnriched_toShift]

/-! ### C3 — ownership isolation of getAllShifts -/

/-- C3: every item returned by `getAllShifts A options` has
`ownerUserId = A`; no record with any other owner (in particular another
user `B`) ever appears in the result, whatever the store contents. -/
theorem getAllShifts_ownership_isolation :
    ∀ (store : Store) (A : String) (options : GetAllOptions),
      (∀ it ∈ (getAllShifts store A options).items, it.ownerUserId = A) ∧
      (∀ B, B ≠ A → ∀ it ∈ (getAllShifts store A options).items,
        it.ownerUserId ≠ B) := by
  intro store A options
  have hmain : ∀ it ∈ (getAllShifts store A options).items, it.ownerUserId = A := by
    intro it hit
    rw [getAllShifts_items] at hit
    obtain ⟨s, hs, rfl⟩ := List.mem_map.mp hit
    exact filteredShifts_owner hs
  exact ⟨hmain, fun B hB it hit hEq => hB (hEq.symm.trans (hmain it hit))⟩

/-- Witness for C3: in a store with one document owned by `A`, the listed
item is owned by `A` and not by `B`. -/
theorem getAllShifts_ownership_isolation_witness :
    (mkEnriched storeA.employers shiftA).ownerUserId = "A" ∧
    (mkEnriched storeA.employers shiftA).ownerUserId ≠ "B" := by
  have h := getAllShifts_ownership_isolation storeA "A" ⟨none, false⟩
  have hf : filteredShifts storeA "A" ⟨none, false⟩ = [shiftA] := by decide
  have hmem : mkEnriched storeA.employers shiftA ∈
      (getAllShifts storeA "A" ⟨none, false⟩).items := by
    rw [getAllShifts_items, hf]
    simp
  exact ⟨h.1 _ hmem, h.2 "B" (by decide) _ hmem⟩

/-! ### C4 — filter composition (corrected: only for non-empty filters) -/

/-- C4 counterexample: with the empty-string employer filter, the single
shift of `storeA` (employer `x`) is still returned, while the subset of
the unfiltered listing with `employerId = ""` is empty — so the claim
fails at `E = ""`. -/
theorem getAllShifts_filter_composition_cex :
    (getAllShifts storeA "A" ⟨some "", false⟩).items ≠
      ((getAllShifts storeA "A" ⟨none, false⟩).items).filter
        (fun it => it.employerId == "") := by
  have hf1 : filteredShifts storeA "A" ⟨some "", false⟩ = [shiftA] := by decide
  have hf2 : filteredShifts storeA "A" ⟨none, false⟩ = [shiftA] := by decide
  have h1 : (getAllShifts storeA "A" ⟨some "", false⟩).items =
      [mkEnriched storeA.employers shiftA] := by
    rw [getAllShifts_items, hf1]; rfl
  have h2 : ((getAllShifts storeA "A" ⟨none, false⟩).items).filter
      (fun it => it.employerId == "") = [] := by
    rw [getAllShifts_items, hf2]; rfl
  intro h
  rw [h1, h2] at h
  cases h

/-- C4 (amended): for every NON-EMPTY employer id `E`, the items of
`getAllShifts owner {employerId := E}` are exactly the subset of the
unfiltered items whose `employerId` equals `E`.  (For `E = ""` the filter
is a no-op because an empty string is falsy in JavaScript.) -/
theorem getAllShifts_filter_composition :
    ∀ (store : Store) (owner E : String) (t : Bool), E ≠ "" →
      (getAllShifts store owner ⟨some E, t⟩).items =
        ((getAllShifts store owner ⟨none, t⟩).items).filter
          (fun it => it.employerId == E) := by
  intro store owner E t hE
  rw [getAllShifts_items, getAllShifts_items]
  unfold filteredShifts
  have h1 : employerFilter (some E) = fun s => s.employerId == E := by
    funext s; simp [employerFilter, hE]
  have h2 : employerFilter (none : Option String) = fun _ => true := by
    funext s; simp [employerFilter]
  rw [h1, h2, List.filter_true]
  exact map_mkEnriched_filter store.employers (fun eid => eid == E) _

/-- Witness for the amended C4 at the concrete store `storeA` and the
non-empty filter `x`. -/
theorem getAllShifts_filter_composition_witness :
    (getAllShifts storeA "A" ⟨some "x", false⟩).items =
      ((getAllShifts storeA "A" ⟨none, false⟩).items).filter
        (fun it => it.employerId == "x") :=
  getAllShifts_filter_composition storeA "A" "x" false (by decide)

/-! ### C9 — per-call memoization of employer rate lookups -/

/-- C9: within one `getAllShifts` call the employer-rate cache starts
empty (the trace is that of an enrichment started on the empty cache),
and the store is consulted exactly once per distinct employer id among
the filtered shifts — never twice, and never for an absent employer id. -/
theorem getAllShifts_rate_memoization :
    ∀ (store : Store) (owner : String) (options : GetAllOptions) (e : String),
      (getAllShiftsWithTrace store owner options).2 =
        (enrichShifts store.employers (filteredShifts store owner options) []).2.2 ∧
      countOcc (getAllShiftsWithTrace store owner options).2 e =
        (if e ∈ (filteredShifts store owner options).map Shift.employerId
         then 1 else 0) := by
  intro store owner options e
  refine ⟨rfl, ?_⟩
  have h := enrichShifts_trace store.employers
    (filteredShifts store owner options) [] e
  simpa [rateLookup] using h

/-! ### C10 — the empty-string employer filter is a no-op -/

/-- C10: passing `employerId = ""` applies no employer filter at all; the
whole result (items, totals and lookup trace) coincides with the result
of the same call without an employer filter. -/
theorem getAllShifts_empty_employer_filter :
    ∀ (store : Store) (owner : String) (t : Bool),
      getAllShifts store owner ⟨some "", t⟩ =
        getAllShifts store owner ⟨none, t⟩ ∧
      getAllShiftsWithTrace store owner ⟨some "", t⟩ =
        getAllShiftsWithTrace store owner ⟨none, t⟩ := by
  intro store owner t
  have hf : filteredShifts store owner ⟨some "", t⟩ =
      filteredShifts store owner ⟨none, t⟩ := by
    unfold filteredShifts
    have h : employerFilter (some "") = employerFilter (none : Option String) := by
      funext s; simp [employerFilter]
    rw [h]
  have hw : getAllShiftsWithTrace store owner ⟨some "", t⟩ =
      getAllShiftsWithTrace store owner ⟨none, t⟩ := by
    unfold getAllShiftsWithTrace
    rw [hf]
  exact ⟨congrArg Prod.fst hw, hw⟩

/-! ### Totals-aggregation lemmas -/

/-- Effect of one accumulation step on a bucket lookup. -/
theorem bucketFind_addToBucket (acc : List (String × ℚ × ℚ)) (key : String)
    (h p : ℚ) (k : String) :
    bucketFind (addToBucket acc key h p) k =
      if k = key then
        match bucketFind acc k with
        | some v => some (v.1 + h, v.2 + p)
        | none => some (h, p)
      else bucketFind acc k := by
  induction acc with
  | nil =>
    by_cases hk : k = key
    · subst hk; simp [addToBucket, bucketFind]
    · have hk2 : ¬ key = k := fun hh => hk hh.symm
      simp [addToBucket, bucketFind, hk, hk2]
  | cons hd tl ih =>
    obtain ⟨k1, v1⟩ := hd
    by_cases h1 : k1 = key
    · subst h1
      by_cases hk : k1 = k
      · subst hk; simp [addToBucket, bucketFind]
      · have hk2 : ¬ k = k1 := fun hh => hk hh.symm
        simp [addToBucket, bucketFind, hk, hk2]
    · by_cases hk : k1 = k
      · subst hk
        simp [addToBucket, bucketFind, h1]
      · simp [addToBucket, bucketFind, h1, hk, ih]

/-- Bucket lookup after the whole accumulation fold: the bucket holds the
initial contents (if any) plus the exact sums over the matching items. -/
theorem bucketFind_foldl (items : List ShiftWithComputed)
    (keyFn : ShiftWithComputed → String) (acc : List (String × ℚ × ℚ))
    (k : String) :
    bucketFind (items.foldl
        (fun a it => addToBucket a (keyFn it) it.hours it.pay) acc) k =
      match bucketFind acc k with
      | some v => some (v.1 + keyHoursSum items keyFn k,
                        v.2 + keyPaySum items keyFn k)
      | none =>
        if (items.filter (fun s => keyFn s == k)).isEmpty then none
        else some (keyHoursSum items keyFn k, keyPaySum items keyFn k) := by
  induction items generalizing acc with
  | nil =>
    cases hb : bucketFind acc k with
    | some v => simp [keyHoursSum, keyPaySum, hb]
    | none => simp [keyHoursSum, keyPaySum, hb]
  | cons it rest ih =>
    simp only [List.foldl_cons]
    rw [ih (addToBucket acc (keyFn it) it.hours it.pay)]
    rw [bucketFind_addToBucket]
    by_cases hk : k = keyFn it
    · have hkb : (keyFn it == k) = true := by simp [hk]
      have hfil : (it :: rest).filter (fun s => keyFn s == k) =
          it :: rest.filter (fun s => keyFn s == k) := by
        simp [List.filter_cons, hkb]
      have hh : keyHoursSum (it :: rest) keyFn k =
          it.hours + keyHoursSum rest keyFn k := by
        simp [keyHoursSum, hfil]
      have hp : keyPaySum (it :: rest) keyFn k =
          it.pay + keyPaySum rest keyFn k := by
        simp [keyPaySum, hfil]
      rw [if_pos hk]
      cases hb : bucketFind acc k with
      | some v =>
        simp only [hh, hp]
        rw [add_assoc, add_assoc]
      | none =>
        simp only [hfil, List.isEmpty_cons, hh, hp]
        simp
    · have hkb : (keyFn it == k) = false := by
        simp
        exact fun hh => hk hh.symm
      have hfil : (it :: rest).filter (fun s => keyFn s == k) =
          rest.filter (fun s => keyFn s == k) := by
        simp [List.filter_cons, hkb]
      have hh : keyHoursSum (it :: rest) keyFn k = keyHoursSum rest keyFn k := by
        simp [keyHoursSum, hfil]
      have hp : keyPaySum (it :: rest) keyFn k = keyPaySum rest keyFn k := by
        simp [keyPaySum, hfil]
      rw [if_neg hk, hh, hp, hfil]

/-- Rounding every bucket commutes with bucket lookup. -/
theorem bucketFind_map_round (l : List (String × ℚ × ℚ)) (k : String) :
    bucketFind (l.map (fun e => (e.1, round2 e.2.1, round2 e.2.2))) k =
      (bucketFind l k).map (fun v => (round2 v.1, round2 v.2)) := by
  induction l with
  | nil => rfl
  | cons hd tl ih =>
    obtain ⟨k1, v1⟩ := hd
    by_cases h : k1 = k
    · simp [bucketFind, h]
    · simp [bucketFind, h, ih]

/-- Every bucket produced by `aggregateTotals` is the exact per-key sum of
hours and pay, rounded to two decimals only after accumulation. -/
theorem aggregateTotals_bucket (items : List ShiftWithComputed)
    (keyFn : ShiftWithComputed → String) (k : String) :
    bucketFind (aggregateTotals items keyFn) k = bucketSumSpec items keyFn k := by
  unfold aggregateTotals bucketSumSpec
  rw [bucketFind_map_round, bucketFind_foldl]
  cases hb : (items.filter (fun s => keyFn s == k)).isEmpty with
  | true => simp [bucketFind, hb]
  | false => simp [bucketFind, hb]

/-! ### C5 — totals: group by UTC day/month of startTime, sum then round -/

/-- C5: when `includeTotals` is set, the totals attached by `getAllShifts`
group the pay-enriched items by the UTC calendar key of their `startTime`
(`YYYY-MM-DD` for `byDay`, `YYYY-MM` for `byMonth`); each bucket holds the
exact sums of the `hours` and `pay` of the items, and rounding to 2 decimals is
applied to each bucket component independently, only after accumulation
(sum-then-round, not round-then-sum). -/
theorem getAllShifts_totals_spec :
    ∀ (store : Store) (owner : String) (eOpt : Option String) (k : String),
      ∃ t : ShiftTotals,
        (getAllShifts store owner ⟨eOpt, true⟩).totals = some t ∧
        t.byDay = aggregateTotals (getAllShifts store owner ⟨eOpt, true⟩).items
          (fun s => formatIsoDate s.startTime) ∧
        t.byMonth = aggregateTotals (getAllShifts store owner ⟨eOpt, true⟩).items
          (fun s => formatYearMonth s.startTime) ∧
        bucketFind t.byDay k =
          bucketSumSpec (getAllShifts store owner ⟨eOpt, true⟩).items
            (fun s => formatIsoDate s.startTime) k ∧
        bucketFind t.byMonth k =
          bucketSumSpec (getAllShifts store owner ⟨eOpt, true⟩).items
            (fun s => formatYearMonth s.startTime) k := by
  intro store owner eOpt k
  refine ⟨_, rfl, rfl, rfl, ?_, ?_⟩
  · exact aggregateTotals_bucket _ _ _
  · exact aggregateTotals_bucket _ _ _

/-! ### C6 — not-found indistinguishability of getShiftById -/

/-- Every failure of `getShiftById` carries the not-found message. -/
theorem getShiftById_error_msg {byId : String → Option DocSnapshot}
    {owner shiftId e : String}
    (h : getShiftById byId owner shiftId = .error e) : e = notFoundMsg shiftId := by
  unfold getShiftById at h
  cases hb : byId shiftId with
  | none =>
    rw [hb] at h
    exact (Except.error.inj h).symm
  | some doc =>
    rw [hb] at h
    by_cases hd : doc.docExists
    · by_cases ho : doc.data.ownerUserId ≠ owner
      · simp [hd, ho] at h
        exact h.symm
      · simp [hd, ho] at h
    · simp [hd] at h
      exact h.symm

/-- C6: `getShiftById` fails both when no document with the given id
exists (nullish snapshot or `exists = false`) and when the document is
owned by another user — and in all cases with the identical message
`Shift with id <id> not found`, so the two failure causes are
indistinguishable to the caller. -/
theorem getShiftById_not_found_indistinguishable :
    ∀ (byId : String → Option DocSnapshot) (owner shiftId : String),
      (byId shiftId = none →
        getShiftById byId owner shiftId = .error (notFoundMsg shiftId)) ∧
      (∀ doc, byId shiftId = some doc → doc.docExists = false →
        getShiftById byId owner shiftId = .error (notFoundMsg shiftId)) ∧
      (∀ doc, byId shiftId = some doc → doc.data.ownerUserId ≠ owner →
        getShiftById byId owner shiftId = .error (notFoundMsg shiftId)) := by
  intro byId owner shiftId
  refine ⟨fun h => by simp [getShiftById, h], fun doc h hd => ?_, fun doc h ho => ?_⟩
  · simp [getShiftById, h, hd]
  · by_cases hd : doc.docExists <;> simp [getShiftById, h, hd, ho]

/-- Witness for C6: a nonexistent id and an id owned by `B`, queried by
`A`, produce the same error shape. -/
theorem getShiftById_not_found_indistinguishable_witness :
    getShiftById byIdB "A" "missing" = .error (notFoundMsg "missing") ∧
    getShiftById byIdB "A" "s1" = .error (notFoundMsg "s1") :=
  ⟨(getShiftById_not_found_indistinguishable byIdB "A" "missing").1 (by decide),
   (getShiftById_not_found_indistinguishable byIdB "A" "s1").2.2
     ⟨"s1", true, { rawA with ownerUserId := "B" }⟩ (by decide) (by decide)⟩

/-! ### C7 — partial-update (frame) semantics of updateShift -/

/-- C7: when the ownership gate succeeds, `updateShift` returns the
in-memory merge of the previously read entity with the update payload
(optimistic echo; the single store write carries exactly that payload);
the merge changes exactly the fields present in the partial input plus
`updatedAt` (always refreshed to `now`), every absent field keeping its
pre-update value; in particular a `{tips := t}` input changes only `tips`
and `updatedAt`. -/
theorem updateShift_partial_merge :
    ∀ (byId : String → Option DocSnapshot) (now : ℤ) (owner shiftId : String)
      (input : UpdateShiftInput) (existing : Shift),
      getShiftById byId owner shiftId = .ok existing →
      ((updateShift byId now owner shiftId input).1 =
          .ok (mergeShift existing (mkUpdateData input now)) ∧
       (updateShift byId now owner shiftId input).2 =
          [StoreOp.update "shifts" existing.id (mkUpdateData input now)] ∧
       (mergeShift existing (mkUpdateData input now)).updatedAt = now ∧
       (mergeShift existing (mkUpdateData input now)).id = existing.id ∧
       (mergeShift existing (mkUpdateData input now)).ownerUserId =
          existing.ownerUserId ∧
       (mergeShift existing (mkUpdateData input now)).createdAt =
          existing.createdAt ∧
       (input.employerId = none →
          (mergeShift existing (mkUpdateData input now)).employerId =
            existing.employerId) ∧
       (input.startTime = none →
          (mergeShift existing (mkUpdateData input now)).startTime =
            existing.startTime) ∧
       (input.endTime = none →
          (mergeShift existing (mkUpdateData input now)).endTime =
            existing.endTime) ∧
       (input.tips = none →
          (mergeShift existing (mkUpdateData input now)).tips =
            existing.tips) ∧
       (∀ v, input.employerId = some v →
          (mergeShift existing (mkUpdateData input now)).employerId = v) ∧
       (∀ v, input.startTime = some v →
          (mergeShift existing (mkUpdateData input now)).startTime = v) ∧
       (∀ v, input.endTime = some v →
          (mergeShift existing (mkUpdateData input now)).endTime = v) ∧
       (∀ v, input.tips = some v →
          (mergeShift existing (mkUpdateData input now)).tips = some v) ∧
       (∀ tp, input = ⟨none, none, none, some tp⟩ →
          mergeShift existing (mkUpdateData input now) =
            { existing with tips := some tp, updatedAt := now })) := by
  intro byId now owner shiftId input existing h
  refine ⟨by simp [updateShift, h], by simp [updateShift, h], rfl, rfl, rfl, rfl,
    ?_, ?_, ?_, ?_, ?_, ?_, ?_, ?_, ?_⟩
  · intro hv; simp [mergeShift, mkUpdateData, hv]
  · intro hv; simp [mergeShift, mkUpdateData, hv]
  · intro hv; simp [mergeShift, mkUpdateData, hv]
  · intro hv; simp [mergeShift, mkUpdateData, hv, Option.orElse]
  · intro v hv; simp [mergeShift, mkUpdateData, hv]
  · intro v hv; simp [mergeShift, mkUpdateData, hv]
  · intro v hv; simp [mergeShift, mkUpdateData, hv]
  · intro v hv; simp [mergeShift, mkUpdateData, hv, Option.orElse]
  · intro tp hv
    subst hv
    simp [mergeShift, mkUpdateData, Option.orElse]

/-- Witness for C7: updating only `tips` on a concrete owned document
leaves every other field unchanged and refreshes `updatedAt`. -/
theorem updateShift_partial_merge_witness :
    (updateShift byIdA 99 "A" "s1" ⟨none, none, none, some 5⟩).1 =
      .ok (mergeShift (normalizeShiftDoc ⟨"s1", rawA⟩)
        (mkUpdateData ⟨none, none, none, some 5⟩ 99)) ∧
    mergeShift (normalizeShiftDoc ⟨"s1", rawA⟩)
        (mkUpdateData ⟨none, none, none, some 5⟩ 99) =
      { normalizeShiftDoc ⟨"s1", rawA⟩ with tips := some 5, updatedAt := 99 } := by
  have h := updateShift_partial_merge byIdA 99 "A" "s1" ⟨none, none, none, some 5⟩
    (normalizeShiftDoc ⟨"s1", rawA⟩) (by rfl)
  exact ⟨h.1, h.2.2.2.2.2.2.2.2.2.2.2.2.2.2 5 rfl⟩

/-! ### C8 — failed ownership gate performs no store write -/

/-- C8: whenever the ownership gate (`getShiftById`) fails — absent shift
or foreign owner — `updateShift` and `deleteShift` fail with the same
not-found error and issue no store operation at all, so the store state is
unchanged on every error path. -/
theorem gate_failure_no_store_write :
    ∀ (byId : String → Option DocSnapshot) (now : ℤ) (owner shiftId : String)
      (input : UpdateShiftInput) (e : String),
      getShiftById byId owner shiftId = .error e →
      (e = notFoundMsg shiftId ∧
       updateShift byId now owner shiftId input = (.error e, []) ∧
       deleteShift byId owner shiftId = (.error e, []) ∧
       applyStoreOps (updateShift byId now owner shiftId input).2 byId = byId ∧
       applyStoreOps (deleteShift byId owner shiftId).2 byId = byId) := by
  intro byId now owner shiftId input e h
  have hu : updateShift byId now owner shiftId input = (.error e, []) := by
    simp [updateShift, h]
  have hd : deleteShift byId owner shiftId = (.error e, []) := by
    simp [deleteShift, h]
  refine ⟨getShiftById_error_msg h, hu, hd, ?_, ?_⟩
  · rw [hu]; rfl
  · rw [hd]; rfl

/-- Witness for C8: user `A` attempting to update or delete the shift
owned by `B` fails with the not-found error and leaves the store intact. -/
theorem gate_failure_no_store_write_witness :
    notFoundMsg "s1" = notFoundMsg "s1" ∧
    updateShift byIdB 99 "A" "s1" ⟨none, none, none, some 5⟩ =
      (.error (notFoundMsg "s1"), []) ∧
    deleteShift byIdB "A" "s1" = (.error (notFoundMsg "s1"), []) ∧
    applyStoreOps (updateShift byIdB 99 "A" "s1" ⟨none, none, none, some 5⟩).2 byIdB =
      byIdB ∧
    applyStoreOps (deleteShift byIdB "A" "s1").2 byIdB = byIdB :=
  gate_failure_no_store_write byIdB 99 "A" "s1" ⟨none, none, none, some 5⟩
    (notFoundMsg "s1") (by rfl)

end ShiftSvc
